import Mathlib

/-!
Verification of the hannes-harnisch/Array container library against its
specification. The development shallowly embeds the two core containers:

* `hh.FixedList` (the spec's BoundedList): capacity-bounded inline storage is
  modelled as a list of `CAPACITY` slots, each `Option α` (`some v` = a
  constructed element, `none` = raw/unconstructed storage), together with the
  `elem_count` field. The raw-pointer loops of `FixedList.hpp`
  (`move_left_unchecked`, `move_right_unchecked`, `std::destroy`,
  `std::uninitialized_copy`, placement-`new` construction loops) are embedded
  as slot-level loops indexed by the same pointer offsets. A move-construction
  of an element transfers its value (the model observes values only, so the
  moved-from residue is irrelevant); a possibly-throwing element constructor
  is modelled by an `Option α` outcome (`none` = the constructor throws), and
  operations that can propagate such an exception return the container state
  after their catch-handlers ran, plus an indicator.
* `hh.VarArray` (the spec's DynamicArray): the heap allocation is
  `Option (List α)` (`none` = null `data()` pointer), plus the `count` field.

Out-of-bounds placement-new into `FixedList` storage (possible only in the
single-pass-range constructor, which has no capacity check) is undefined
behavior in the source and is modelled as failure (`Option.none` result).
-/

set_option maxHeartbeats 1000000

namespace hh

variable {α : Type}

/-- Reads storage slot `i`; a slot outside the buffer reads as `none` (raw memory). -/
def sget (buf : List (Option α)) (i : Nat) : Option α :=
  buf.getD i none

/-- Embeds the element-by-element loop of `FixedList::move_left_unchecked`:
`while (src_begin != src_end) new (dst_begin++) T(std::move(*src_begin++));` —
`n` iterations copying slot `src + k` to slot `dst + k` in ascending order,
each read taken from the buffer as left by the previous iterations. -/
def move_left_loop : List (Option α) → Nat → Nat → Nat → List (Option α)
  | buf, _, _, 0 => buf
  | buf, src, dst, n + 1 => move_left_loop (buf.set dst (sget buf src)) (src + 1) (dst + 1) n

/-- Embeds `FixedList::move_left_unchecked(src_begin, src_end, dst_begin)`. -/
def move_left_unchecked (buf : List (Option α)) (src send dst : Nat) : List (Option α) :=
  move_left_loop buf src dst (send - src)

/-- Embeds the element-by-element loop of `FixedList::move_right_unchecked`:
`while (src_begin != src_end) new (--dst_end) T(std::move(*--src_end));` —
`n` iterations copying slot `send - 1 - k` to slot `dend - 1 - k` in
descending order. -/
def move_right_loop : List (Option α) → Nat → Nat → Nat → List (Option α)
  | buf, _, _, 0 => buf
  | buf, send, dend, n + 1 =>
    move_right_loop (buf.set (dend - 1) (sget buf (send - 1))) (send - 1) (dend - 1) n

/-- Embeds `FixedList::move_right_unchecked(src_begin, src_end, dst_end)`. -/
def move_right_unchecked (buf : List (Option α)) (src send dend : Nat) : List (Option α) :=
  move_right_loop buf send dend (send - src)

/-- Embeds `std::destroy(first, last)` over the storage: destructs slots
`first + k` for `k < n` in ascending order, leaving them unconstructed. -/
def destroy_loop : List (Option α) → Nat → Nat → List (Option α)
  | buf, _, 0 => buf
  | buf, i, n + 1 => destroy_loop (buf.set i none) (i + 1) n

/-- Embeds `std::destroy` over the half-open slot range `[first, last)`. -/
def destroy_range (buf : List (Option α)) (first last : Nat) : List (Option α) :=
  destroy_loop buf first (last - first)

/-- Embeds `std::uninitialized_copy` / `std::uninitialized_fill_n` with
non-throwing element constructors: constructs the values `vs` into slots
`dst, dst + 1, ...` in order. -/
def uninit_copy_loop : List (Option α) → Nat → List α → List (Option α)
  | buf, _, [] => buf
  | buf, dst, v :: vs => uninit_copy_loop (buf.set dst (some v)) (dst + 1) vs

/-- Embeds `std::uninitialized_copy` where the destination is the
`CAPACITY`-slot storage of a `FixedList` and the source length is unknown
(single-pass range): a placement-`new` at a slot index past the end of the
storage is an out-of-bounds write — undefined behavior — modelled as `none`. -/
def uninit_copy_checked : List (Option α) → Nat → List α → Option (List (Option α))
  | buf, _, [] => some buf
  | buf, dst, v :: vs =>
    if dst < buf.length then uninit_copy_checked (buf.set dst (some v)) (dst + 1) vs else none

/-- Embeds a placement-`new` construction loop (`while (counter--) new (pos_ptr++) T(...);`)
whose element constructors may throw. `ctors` lists the outcome of each
successive construction: `some v` constructs the value `v`, `none` throws.
On a throw the loop stops; the error value carries the buffer at that moment
(already-constructed elements still in place — the caller's catch handler
decides what to destroy) and the pointer `pos_ptr` reached. -/
def construct_loop :
    List (Option α) → Nat → List (Option α) → Except (List (Option α) × Nat) (List (Option α))
  | buf, _, [] => .ok buf
  | buf, dst, c :: cs =>
    match c with
    | none => .error (buf, dst)
    | some v => construct_loop (buf.set dst (some v)) (dst + 1) cs

/-- The FixedList data model (spec name: BoundedList): `elem_count` live
elements in a `CAPACITY`-slot inline buffer. Slot `i` holds `some v` iff a
value is constructed there. -/
structure FixedList (α : Type) (CAPACITY : Nat) where
  elem_count : Nat
  storage : List (Option α)
deriving DecidableEq

variable {CAPACITY : Nat}

/-- Structural well-formedness: the storage really is the `CAPACITY`-slot
buffer and the length counter does not exceed the capacity. -/
def FixedList.WF (l : FixedList α CAPACITY) : Prop :=
  l.storage.length = CAPACITY ∧ l.elem_count ≤ CAPACITY

/-- The class invariant that slots `[0, elem_count)` hold constructed elements. -/
def FixedList.Live (l : FixedList α CAPACITY) : Prop :=
  ∀ i, i < l.elem_count → (sget l.storage i).isSome

/-- Embeds `FixedList::size`. -/
def FixedList.size (l : FixedList α CAPACITY) : Nat :=
  l.elem_count

/-- The visible state of the container: its live slot prefix. Two states with
equal `observed` agree on `size()` (the length) and on every element. -/
def FixedList.observed (l : FixedList α CAPACITY) : List (Option α) :=
  l.storage.take l.elem_count

/-- The live element values, in order. -/
def FixedList.liveVals (l : FixedList α CAPACITY) : List α :=
  (l.storage.take l.elem_count).filterMap id

/-- Embeds `FixedList::FixedList(size_t count)`: default-constructs `count`
elements into the raw buffer (the produced default value is the model
parameter `dflt`). Caller contract (assert): `count ≤ CAPACITY`. -/
def FixedList.mk_count (dflt : α) (count : Nat) : FixedList α CAPACITY :=
  ⟨count, uninit_copy_loop (List.replicate CAPACITY none) 0 (List.replicate count dflt)⟩

/-- Embeds `FixedList::FixedList(size_t count, const T& value)`:
`std::uninitialized_fill` of `count` copies of `value`.
Caller contract (assert): `count ≤ CAPACITY`. -/
def FixedList.mk_fill (count : Nat) (value : α) : FixedList α CAPACITY :=
  ⟨count, uninit_copy_loop (List.replicate CAPACITY none) 0 (List.replicate count value)⟩

/-- Embeds the forward-range / initializer-list constructors of `FixedList`:
copies all listed values, `elem_count` is the list size.
Caller contract (assert): `init.length ≤ CAPACITY`. -/
def FixedList.mk_of_list (init : List α) : FixedList α CAPACITY :=
  ⟨init.length, uninit_copy_loop (List.replicate CAPACITY none) 0 init⟩

/-- Embeds the single-pass (`std::input_iterator`) range constructor of
`FixedList`: `elem_count` is first set to `CAPACITY`, the whole range is
copied by `std::uninitialized_copy` (the algorithm has no capacity clamp, so
a range longer than `CAPACITY` writes out of bounds — modelled as `none`),
then `elem_count` becomes the number of elements copied. -/
def FixedList.from_input_range (xs : List α) : Option (FixedList α CAPACITY) :=
  match uninit_copy_checked (List.replicate CAPACITY none) 0 xs with
  | some buf => some ⟨xs.length, buf⟩
  | none => none

/-- Embeds `FixedList::emplace_unchecked(pos, ...)`: right-shift of
`[pos, end)` by one slot, then construction at `pos` (outcome `ctor`); the
count grows only on success, and the catch handler un-shifts the tail with
`move_left_unchecked(pos + 1, end + 1, pos)`. Returns the new state and
`some pos` (pointer to the new element) on success, `none` when the
exception propagated. -/
def FixedList.emplace_unchecked (l : FixedList α CAPACITY) (pos : Nat) (ctor : Option α) :
    FixedList α CAPACITY × Option Nat :=
  let n := l.elem_count
  let buf1 := move_right_unchecked l.storage pos n (n + 1)
  match ctor with
  | some v => (⟨n + 1, buf1.set pos (some v)⟩, some pos)
  | none => (⟨n, move_left_unchecked buf1 (pos + 1) (n + 1) pos⟩, none)

/-- Embeds `FixedList::insert_count_unchecked(pos, count, value)`: right-shift
of `[pos, end)` by `count` slots, then `count` copy-constructions at
`pos, pos + 1, ...` (outcomes `ctors`); the count grows only after all
succeed. The catch handler destroys the new elements already constructed
(`std::destroy(orig_pos_ptr, pos_ptr)`) and un-shifts the tail with
`move_left_unchecked(orig_pos + count, end + count, orig_pos)`. -/
def FixedList.insert_count_unchecked (l : FixedList α CAPACITY) (pos count : Nat)
    (ctors : List (Option α)) : FixedList α CAPACITY × Option Nat :=
  let n := l.elem_count
  let buf1 := move_right_unchecked l.storage pos n (n + count)
  match construct_loop buf1 pos ctors with
  | .ok buf => (⟨n + count, buf⟩, some pos)
  | .error (buf, p) =>
    (⟨n, move_left_unchecked (destroy_range buf pos p) (pos + count) (n + count) pos⟩, none)

/-- Embeds `FixedList::push_unchecked`: constructs at slot `elem_count`, then
increments the count; returns the pointer to the new element. -/
def FixedList.push_unchecked (l : FixedList α CAPACITY) (v : α) : FixedList α CAPACITY × Nat :=
  (⟨l.elem_count + 1, l.storage.set l.elem_count (some v)⟩, l.elem_count)

/-- Embeds `FixedList::try_emplace_back`: returns a null pointer (`none`) if
the container is full, otherwise pushes and returns the new element's slot. -/
def FixedList.try_emplace_back (l : FixedList α CAPACITY) (v : α) :
    FixedList α CAPACITY × Option Nat :=
  if l.elem_count = CAPACITY then (l, none)
  else ((l.push_unchecked v).1, some (l.push_unchecked v).2)

/-- Embeds `FixedList::try_emplace(pos, ...)` (and `try_insert(pos, value)`,
which delegates to it) for a non-throwing constructor producing `v`: returns
the end iterator if the container is full, otherwise emplaces at `pos`. -/
def FixedList.try_emplace (l : FixedList α CAPACITY) (pos : Nat) (v : α) :
    FixedList α CAPACITY × Nat :=
  if l.elem_count = CAPACITY then (l, l.elem_count)
  else ((l.emplace_unchecked pos (some v)).1, pos)

/-- Embeds `FixedList::try_insert(pos, count, value)` with non-throwing element
copies: returns the end iterator if `elem_count + count` would exceed the
capacity, otherwise delegates to `insert_count_unchecked`. The iterator
result is a slot index; `none` would mean a propagated exception. -/
def FixedList.try_insert_count (l : FixedList α CAPACITY) (pos count : Nat) (v : α) :
    FixedList α CAPACITY × Option Nat :=
  if l.elem_count + count > CAPACITY then (l, some l.elem_count)
  else
    let r := l.insert_count_unchecked pos count (List.replicate count (some v))
    (r.1, r.2)

/-- Embeds `FixedList::erase(first, last)`: destroys the slot range, left-shifts
the tail with `move_left_unchecked(last, end, first)`, subtracts the range
size from the count, and returns an iterator to slot `first`. -/
def FixedList.erase_range (l : FixedList α CAPACITY) (first last : Nat) :
    FixedList α CAPACITY × Nat :=
  let buf1 := destroy_range l.storage first last
  let buf2 := move_left_unchecked buf1 last l.elem_count first
  (⟨l.elem_count - (last - first), buf2⟩, first)

/-- Embeds `FixedList::clear`: destroys all live elements and zeroes the count. -/
def FixedList.clear (l : FixedList α CAPACITY) : FixedList α CAPACITY :=
  ⟨0, destroy_range l.storage 0 l.elem_count⟩

/-- Embeds `FixedList::assign(size_t count, const T& value)` (and structurally
also the forward-range `assign`): `destruct()` destroys the live elements,
`elem_count` becomes `count`, and the elements are rebuilt by
`std::uninitialized_fill_n` (construction outcomes `ctors`; on a throw the
algorithm destroys what it constructed and the catch sets `elem_count = 0`).
The `Bool` result reports whether an exception propagated. -/
def FixedList.assign_fill (l : FixedList α CAPACITY) (count : Nat) (ctors : List (Option α)) :
    FixedList α CAPACITY × Bool :=
  match construct_loop (destroy_range l.storage 0 l.elem_count) 0 ctors with
  | .ok buf => (⟨count, buf⟩, false)
  | .error (buf, p) => (⟨0, destroy_range buf 0 p⟩, true)

/-- Embeds the `emplace_back` loop of the single-pass-range `FixedList::assign`:
appends one element per construction outcome, stopping when one throws. -/
def push_back_loop : FixedList α CAPACITY → List (Option α) → FixedList α CAPACITY × Bool
  | l, [] => (l, false)
  | l, none :: _ => (l, true)
  | l, some v :: cs => push_back_loop (l.push_unchecked v).1 cs

/-- Embeds the single-pass (`std::input_iterator`) range `FixedList::assign`:
`clear()`, then `emplace_back` per source element; the catch handler runs
`clear()` again, so a throw leaves the container empty. -/
def FixedList.assign_input (l : FixedList α CAPACITY) (ctors : List (Option α)) :
    FixedList α CAPACITY × Bool :=
  let r := push_back_loop l.clear ctors
  if r.2 then (r.1.clear, true) else (r.1, false)

/-- Embeds `FixedList::common_at` (`at(index)`): returns the element at `index`
or raises `std::out_of_range` (the `Except.error`) when `index >= elem_count`. -/
def FixedList.common_at (l : FixedList α CAPACITY) (index : Nat) : Except Unit (Option α) :=
  if index < l.elem_count then .ok (sget l.storage index) else .error ()

/-- Embeds `FixedList::common_get` (`get(index)`): returns a pointer to the
element at `index`, or a null pointer (`none`) when `index >= elem_count`. -/
def FixedList.common_get (l : FixedList α CAPACITY) (index : Nat) : Option (Option α) :=
  if index < l.elem_count then some (sget l.storage index) else none

/-- Embeds `std::equal(begin(), end(), std::begin(that))` as used by the
containers' `operator==`: element-wise equality driven by the first range.
The callers invoke it only after checking the sizes match, so the
first-range-longer case is unreachable there. -/
def seq_equal [DecidableEq α] : List α → List α → Bool
  | [], _ => true
  | _ :: _, [] => true
  | a :: as, b :: bs => decide (a = b) && seq_equal as bs

/-- Embeds `std::lexicographical_compare` as used by the containers'
`operator<`: first mismatching element decides via `<` tried both ways; a
prefix is less than a strict extension. -/
def lex_less [LinearOrder α] : List α → List α → Bool
  | _, [] => false
  | [], _ :: _ => true
  | a :: as, b :: bs => if a < b then true else if b < a then false else lex_less as bs

/-- Embeds `std::lexicographical_compare_three_way` as used by the containers'
`operator<=>`, with the element comparison derived from the linear order. -/
def lex_three_way [LinearOrder α] : List α → List α → Ordering
  | [], [] => .eq
  | [], _ :: _ => .lt
  | _ :: _, [] => .gt
  | a :: as, b :: bs => if a < b then .lt else if b < a then .gt else lex_three_way as bs

/-- Embeds `FixedList::operator==` against any container exposing size and
elements (modelled as the value list `that`). -/
def FixedList.beq [DecidableEq α] (l : FixedList α CAPACITY) (that : List α) : Bool :=
  decide (l.size = that.length) && seq_equal l.liveVals that

/-- Embeds `FixedList::operator<`. -/
def FixedList.lex_lt [LinearOrder α] (l : FixedList α CAPACITY) (that : List α) : Bool :=
  lex_less l.liveVals that

/-- Embeds `FixedList::operator<=>`. -/
def FixedList.three_way [LinearOrder α] (l : FixedList α CAPACITY) (that : List α) : Ordering :=
  lex_three_way l.liveVals that

/-- The VarArray data model (spec name: DynamicArray): `storage` is the heap
allocation behind `data()` (`none` = null pointer), `count` the element count. -/
structure VarArray (α : Type) where
  storage : Option (List α)
  count : Nat
deriving DecidableEq

/-- Structural well-formedness: a null `data()` goes with `count = 0`, and a
live allocation holds exactly `count` constructed elements. -/
def VarArray.WF (a : VarArray α) : Prop :=
  match a.storage with
  | none => a.count = 0
  | some xs => xs.length = a.count

/-- The spec's invariant: the storage pointer is null iff the length is zero. -/
def VarArray.NullIffEmpty (a : VarArray α) : Prop :=
  a.storage = none ↔ a.count = 0

/-- Embeds `VarArray::size`. -/
def VarArray.size (a : VarArray α) : Nat :=
  a.count

/-- The element values reachable from `data()` (empty for a null pointer). -/
def VarArray.elemsList (a : VarArray α) : List α :=
  a.storage.getD []

/-- Embeds the element-construction loop of `VarArray::VarArray(count, value)`:
one copy of `value` constructed per allocated slot. -/
def fill_construct_loop (value : α) : Nat → List α
  | 0 => []
  | n + 1 => value :: fill_construct_loop value n

/-- Embeds `VarArray::VarArray(size_type count, const U& value, ...)`:
allocates `count` slots and copy-constructs `value` into each. -/
def VarArray.mk_fill (count : Nat) (value : α) : VarArray α :=
  ⟨some (fill_construct_loop value count), count⟩

/-- Embeds `VarArray::VarArray(VarArray&&)`: the destination takes the source's
allocation (`std::exchange(that.alloc_pair.array, nullptr)`) and reads
`that.count`; the source's `count` member is not modified. Returns
(destination, source after the move). -/
def VarArray.move_construct (that : VarArray α) : VarArray α × VarArray α :=
  (⟨that.storage, that.count⟩, ⟨none, that.count⟩)

/-- Embeds `target = std::move(src)` via `VarArray::operator=(VarArray that)`:
the by-value parameter is move-constructed from `src`, then swapped into the
target; the old target state is destroyed together with the temporary.
Returns (target after, source after). -/
def VarArray.move_assign (_target src : VarArray α) : VarArray α × VarArray α :=
  let r := src.move_construct
  (⟨r.1.storage, r.1.count⟩, r.2)

/-- Embeds the element-construction loop of `VarArray::VarArray(const VarArray&)`:
the `k`-th slot is copy-constructed from the `k`-th source element;
`copyOk k = false` means that copy constructor throws (so the constructor
exits by exception and no array is produced). -/
def copy_construct_loop (copyOk : Nat → Bool) : Nat → List α → Option (List α)
  | _, [] => some []
  | k, v :: vs =>
    if copyOk k then
      match copy_construct_loop copyOk (k + 1) vs with
      | some ys => some (v :: ys)
      | none => none
    else none

/-- Embeds `VarArray::VarArray(const VarArray&)`: allocates `src.count` slots
and deep-copies every element; `none` when an element copy throws. -/
def VarArray.copy_construct (src : VarArray α) (copyOk : Nat → Bool) : Option (VarArray α) :=
  match copy_construct_loop copyOk 0 src.elemsList with
  | some ys => some ⟨some ys, src.count⟩
  | none => none

/-- Embeds `target = src` via `VarArray::operator=(VarArray that)`: the
by-value parameter is copy-constructed from `src` before the operator body
runs; if that copy throws, the exception propagates with the target untouched
(`Bool` result `true`); otherwise the complete copy is swapped into the
target and the old target state is destroyed with the temporary. -/
def VarArray.copy_assign (target src : VarArray α) (copyOk : Nat → Bool) : VarArray α × Bool :=
  match src.copy_construct copyOk with
  | some temp => (⟨temp.storage, temp.count⟩, false)
  | none => (target, true)

/-- Embeds `VarArray::common_at` (`at(index)`): the element at `index`, or
`std::out_of_range` raised (the `Except.error`) when `index >= count`. A
successful read yields `some v` only if the allocation really holds a value
there (a null `data()` would make the read undefined). -/
def VarArray.common_at (a : VarArray α) (index : Nat) : Except Unit (Option α) :=
  if index < a.count then .ok a.elemsList[index]? else .error ()

/-- Embeds `VarArray::common_get` (`get(index)`): a pointer to the element at
`index`, or a null pointer (`none`) when `index >= count`. -/
def VarArray.common_get (a : VarArray α) (index : Nat) : Option (Option α) :=
  if index < a.count then some a.elemsList[index]? else none

/-- Embeds `VarArray::operator==` against any container exposing size and
elements. -/
def VarArray.beq [DecidableEq α] (a : VarArray α) (that : List α) : Bool :=
  decide (a.size = that.length) && seq_equal a.elemsList that

/-- Embeds `VarArray::operator<`. -/
def VarArray.lex_lt [LinearOrder α] (a : VarArray α) (that : List α) : Bool :=
  lex_less a.elemsList that

/-- Embeds `VarArray::operator<=>`. -/
def VarArray.three_way [LinearOrder α] (a : VarArray α) (that : List α) : Ordering :=
  lex_three_way a.elemsList that

instance FixedList.decidableWF (l : FixedList α CAPACITY) : Decidable l.WF :=
  inferInstanceAs (Decidable (l.storage.length = CAPACITY ∧ l.elem_count ≤ CAPACITY))

instance FixedList.decidableLive (l : FixedList α CAPACITY) : Decidable l.Live :=
  inferInstanceAs (Decidable (∀ i, i < l.elem_count → (sget l.storage i).isSome = true))

instance VarArray.decidableWF : (a : VarArray α) → Decidable a.WF
  | ⟨none, c⟩ => inferInstanceAs (Decidable (c = 0))
  | ⟨some xs, c⟩ => inferInstanceAs (Decidable (xs.length = c))

/-! ### Basic slot-read lemmas -/

theorem sget_eq_getElem? (buf : List (Option α)) (i : Nat) : sget buf i = buf[i]?.getD none :=
  List.getD_eq_getElem?_getD buf i none

theorem sget_oob (buf : List (Option α)) (i : Nat) (h : buf.length ≤ i) : sget buf i = none := by
  rw [sget_eq_getElem?, List.getElem?_eq_none h]
  rfl

theorem sget_set_self (buf : List (Option α)) (i : Nat) (v : Option α) (h : i < buf.length) :
    sget (buf.set i v) i = v := by
  rw [sget_eq_getElem?]
  simp [List.getElem?_set_self, h]

theorem sget_set_ne (buf : List (Option α)) (i j : Nat) (v : Option α) (h : i ≠ j) :
    sget (buf.set i v) j = sget buf j := by
  rw [sget_eq_getElem?, sget_eq_getElem?, List.getElem?_set_ne h]

theorem sget_set_any (buf : List (Option α)) (i : Nat) (v : Option α) :
    sget (buf.set i v) i = v ∨ (sget (buf.set i v) i = none ∧ sget buf i = none) := by
  by_cases h : i < buf.length
  · exact Or.inl (sget_set_self buf i v h)
  · push_neg at h
    refine Or.inr ⟨?_, sget_oob buf i h⟩
    exact sget_oob _ i (by simpa using h)

/-! ### Lengths of the storage loops -/

theorem length_move_left_loop :
    ∀ (n : Nat) (buf : List (Option α)) (src dst : Nat),
    (move_left_loop buf src dst n).length = buf.length := by
  intro n
  induction n with
  | zero => intro buf src dst; rfl
  | succ n ih =>
    intro buf src dst
    rw [move_left_loop, ih]
    exact buf.length_set dst _

theorem length_move_right_loop :
    ∀ (n : Nat) (buf : List (Option α)) (send dend : Nat),
    (move_right_loop buf send dend n).length = buf.length := by
  intro n
  induction n with
  | zero => intro buf send dend; rfl
  | succ n ih =>
    intro buf send dend
    rw [move_right_loop, ih]
    exact buf.length_set _ _

theorem length_destroy_loop :
    ∀ (n : Nat) (buf : List (Option α)) (first : Nat),
    (destroy_loop buf first n).length = buf.length := by
  intro n
  induction n with
  | zero => intro buf first; rfl
  | succ n ih =>
    intro buf first
    rw [destroy_loop, ih]
    exact buf.length_set first none

theorem length_uninit_copy_loop :
    ∀ (vs : List α) (buf : List (Option α)) (dst : Nat),
    (uninit_copy_loop buf dst vs).length = buf.length := by
  intro vs
  induction vs with
  | nil => intro buf dst; rfl
  | cons v vs ih =>
    intro buf dst
    rw [uninit_copy_loop, ih]
    exact buf.length_set dst _

/-! ### Pointwise characterizations of the storage loops -/

theorem sget_destroy_loop :
    ∀ (n : Nat) (buf : List (Option α)) (first i : Nat),
    sget (destroy_loop buf first n) i =
      if first ≤ i ∧ i < first + n then none else sget buf i := by
  intro n
  induction n with
  | zero =>
    intro buf first i
    rw [destroy_loop, if_neg (by omega)]
  | succ n ih =>
    intro buf first i
    rw [destroy_loop, ih]
    by_cases h1 : first + 1 ≤ i ∧ i < first + 1 + n
    · rw [if_pos h1, if_pos (by omega)]
    · rw [if_neg h1]
      by_cases h2 : i = first
      · subst h2
        rw [if_pos (by omega)]
        rcases sget_set_any buf i none with h | ⟨h, _⟩ <;> exact h
      · rw [sget_set_ne buf first i none (by omega), if_neg (by omega)]

theorem sget_move_left_loop :
    ∀ (n : Nat) (buf : List (Option α)) (src dst : Nat),
    dst ≤ src → src + n ≤ buf.length → ∀ i,
    sget (move_left_loop buf src dst n) i =
      if dst ≤ i ∧ i < dst + n then sget buf (src + (i - dst)) else sget buf i := by
  intro n
  induction n with
  | zero =>
    intro buf src dst _ _ i
    rw [move_left_loop, if_neg (by omega)]
  | succ n ih =>
    intro buf src dst hds hlen i
    have hlen' : (src + 1) + n ≤ (buf.set dst (sget buf src)).length := by
      rw [buf.length_set]
      omega
    rw [move_left_loop, ih (buf.set dst (sget buf src)) (src + 1) (dst + 1) (by omega) hlen' i]
    by_cases h1 : dst + 1 ≤ i ∧ i < dst + 1 + n
    · rw [if_pos h1, if_pos (by omega)]
      have hidx : src + 1 + (i - (dst + 1)) = src + (i - dst) := by omega
      rw [hidx, sget_set_ne buf dst (src + (i - dst)) _ (by omega)]
    · rw [if_neg h1]
      by_cases h2 : i = dst
      · subst h2
        rw [if_pos (by omega)]
        have : i - i = 0 := by omega
        rw [this, Nat.add_zero]
        exact sget_set_self buf i (sget buf src) (by omega)
      · rw [sget_set_ne buf dst i _ (by omega), if_neg (by omega)]

theorem sget_move_right_loop :
    ∀ (n : Nat) (buf : List (Option α)) (send dend : Nat),
    n ≤ send → send ≤ dend → dend ≤ buf.length → ∀ i,
    sget (move_right_loop buf send dend n) i =
      if dend - n ≤ i ∧ i < dend then sget buf (i - (dend - send)) else sget buf i := by
  intro n
  induction n with
  | zero =>
    intro buf send dend _ _ _ i
    rw [move_right_loop, if_neg (by omega)]
  | succ n ih =>
    intro buf send dend hns hsd hlen i
    have hlen' : dend - 1 ≤ (buf.set (dend - 1) (sget buf (send - 1))).length := by
      rw [buf.length_set]
      omega
    rw [move_right_loop,
      ih (buf.set (dend - 1) (sget buf (send - 1))) (send - 1) (dend - 1) (by omega) (by omega)
        hlen' i]
    by_cases h1 : dend - 1 - n ≤ i ∧ i < dend - 1
    · rw [if_pos h1, if_pos (by omega)]
      have hidx : i - (dend - 1 - (send - 1)) = i - (dend - send) := by omega
      rw [hidx, sget_set_ne buf (dend - 1) (i - (dend - send)) _ (by omega)]
    · rw [if_neg h1]
      by_cases h2 : i = dend - 1
      · subst h2
        rw [if_pos (by omega)]
        have hidx : dend - 1 - (dend - send) = send - 1 := by omega
        rw [hidx]
        exact sget_set_self buf (dend - 1) _ (by omega)
      · rw [sget_set_ne buf (dend - 1) i _ (by omega), if_neg (by omega)]

theorem sget_uninit_copy_loop :
    ∀ (vs : List α) (buf : List (Option α)) (dst : Nat),
    dst + vs.length ≤ buf.length → ∀ i,
    sget (uninit_copy_loop buf dst vs) i =
      if dst ≤ i ∧ i < dst + vs.length then vs[i - dst]? else sget buf i := by
  intro vs
  induction vs with
  | nil =>
    intro buf dst _ i
    rw [uninit_copy_loop, if_neg (by simp)]
  | cons v vs ih =>
    intro buf dst hlen i
    have hlen' : (dst + 1) + vs.length ≤ (buf.set dst (some v)).length := by
      rw [buf.length_set]
      simp only [List.length_cons] at hlen
      omega
    rw [uninit_copy_loop, ih (buf.set dst (some v)) (dst + 1) hlen' i]
    simp only [List.length_cons]
    by_cases h1 : dst + 1 ≤ i ∧ i < dst + 1 + vs.length
    · rw [if_pos h1, if_pos (by omega)]
      have hidx : i - dst = (i - (dst + 1)) + 1 := by omega
      rw [hidx, List.getElem?_cons_succ]
    · rw [if_neg h1]
      by_cases h2 : i = dst
      · subst h2
        rw [if_pos (by omega)]
        have : i - i = 0 := by omega
        rw [this, List.getElem?_cons_zero]
        exact sget_set_self buf i (some v) (by simp only [List.length_cons] at hlen; omega)
      · rw [sget_set_ne buf dst i _ (by omega), if_neg (by omega)]

theorem uninit_copy_checked_eq :
    ∀ (vs : List α) (buf : List (Option α)) (dst : Nat),
    dst + vs.length ≤ buf.length →
    uninit_copy_checked buf dst vs = some (uninit_copy_loop buf dst vs) := by
  intro vs
  induction vs with
  | nil => intro buf dst _; rfl
  | cons v vs ih =>
    intro buf dst hlen
    simp only [List.length_cons] at hlen
    rw [uninit_copy_checked, uninit_copy_loop, if_pos (by omega)]
    exact ih (buf.set dst (some v)) (dst + 1) (by rw [buf.length_set]; omega)

theorem construct_loop_error :
    ∀ (cs : List (Option α)) (buf : List (Option α)) (dst : Nat),
    none ∈ cs → ∃ bufE p, construct_loop buf dst cs = .error (bufE, p) ∧
      dst ≤ p ∧ p ≤ dst + cs.length ∧ bufE.length = buf.length ∧
      ∀ i, i < dst ∨ p ≤ i → sget bufE i = sget buf i := by
  intro cs
  induction cs with
  | nil => intro buf dst h; cases h
  | cons c cs ih =>
    intro buf dst hmem
    match c with
    | none =>
      refine ⟨buf, dst, rfl, le_refl dst, by simp, rfl, fun i _ => rfl⟩
    | some v =>
      have hmem' : none ∈ cs := by
        rcases List.mem_cons.mp hmem with h | h
        · cases h
        · exact h
      obtain ⟨bufE, p, heq, hp1, hp2, hlen, hout⟩ := ih (buf.set dst (some v)) (dst + 1) hmem'
      refine ⟨bufE, p, heq, by omega, by simp only [List.length_cons]; omega,
        by rw [hlen]; exact buf.length_set dst _, ?_⟩
      intro i hi
      rw [hout i (by omega), sget_set_ne buf dst i _ (by omega)]

/-! ### Extensionality of the visible prefix -/

theorem take_eq_of_sget (a b : List (Option α)) (n : Nat) (ha : n ≤ a.length)
    (hb : n ≤ b.length) (h : ∀ i, i < n → sget a i = sget b i) : a.take n = b.take n := by
  apply List.ext_getElem?
  intro i
  rw [List.getElem?_take, List.getElem?_take]
  by_cases hi : i < n
  · rw [if_pos hi, if_pos hi]
    have h1 : i < a.length := lt_of_lt_of_le hi ha
    have h2 : i < b.length := lt_of_lt_of_le hi hb
    have hs := h i hi
    rw [sget_eq_getElem?, sget_eq_getElem?, List.getElem?_eq_getElem h1,
      List.getElem?_eq_getElem h2] at hs
    rw [List.getElem?_eq_getElem h1, List.getElem?_eq_getElem h2]
    simpa using hs
  · rw [if_neg hi, if_neg hi]

/-! ### Live prefixes as value lists -/

theorem filterMap_id_of_all_isSome :
    ∀ (xs : List (Option α)), (∀ x ∈ xs, x.isSome) → xs = (xs.filterMap id).map some := by
  intro xs
  induction xs with
  | nil => intro _; rfl
  | cons x xs ih =>
    intro h
    obtain ⟨v, rfl⟩ := Option.isSome_iff_exists.mp (h x (List.mem_cons_self x xs))
    rw [List.filterMap_cons]
    simp only [id]
    rw [List.map_cons]
    exact congrArg (some v :: ·) (ih fun y hy => h y (List.mem_cons_of_mem _ hy))

theorem FixedList.observed_eq_map_some (l : FixedList α CAPACITY) (hW : l.WF) (hL : l.Live) :
    l.observed = l.liveVals.map some := by
  obtain ⟨hcap, hle⟩ := hW
  rw [FixedList.observed, FixedList.liveVals]
  apply filterMap_id_of_all_isSome
  intro x hx
  obtain ⟨i, hi, rfl⟩ := List.getElem_of_mem hx
  have hmin := l.storage.length_take l.elem_count
  have hilt : i < l.elem_count := by omega
  have hr : (l.storage.take l.elem_count)[i]? = l.storage[i]? := by
    rw [List.getElem?_take, if_pos hilt]
  have hs : sget (l.storage.take l.elem_count) i = sget l.storage i := by
    rw [sget_eq_getElem?, sget_eq_getElem?, hr]
  rw [show (l.storage.take l.elem_count)[i] =
      sget (l.storage.take l.elem_count) i by
    rw [sget_eq_getElem?, List.getElem?_eq_getElem hi]; rfl]
  rw [hs]
  exact hL i hilt

theorem FixedList.liveVals_length (l : FixedList α CAPACITY) (hW : l.WF) (hL : l.Live) :
    l.liveVals.length = l.elem_count := by
  obtain ⟨hcap, hle⟩ := hW
  have h1 : l.observed.length = l.elem_count := by
    rw [FixedList.observed, l.storage.length_take]
    omega
  rw [FixedList.observed_eq_map_some l ⟨hcap, hle⟩ hL] at h1
  simpa using h1

/-! ### The comparison algorithms against their mathematical specifications -/

theorem seq_equal_iff [DecidableEq α] :
    ∀ (as bs : List α), as.length = bs.length → (seq_equal as bs = true ↔ as = bs) := by
  intro as
  induction as with
  | nil =>
    intro bs h
    match bs with
    | [] => simp [seq_equal]
    | b :: bs => simp at h
  | cons a as ih =>
    intro bs h
    match bs with
    | [] => simp at h
    | b :: bs =>
      simp only [List.length_cons, Nat.add_right_cancel_iff] at h
      rw [seq_equal, Bool.and_eq_true, decide_eq_true_iff, ih bs h]
      constructor
      · rintro ⟨rfl, rfl⟩; rfl
      · intro he
        injection he with h1 h2
        exact ⟨h1, h2⟩

theorem lex_less_nil_right [LinearOrder α] (as : List α) : lex_less as [] = false := by
  cases as <;> rfl

theorem lex_less_nil_cons [LinearOrder α] (b : α) (bs : List α) :
    lex_less [] (b :: bs) = true :=
  rfl

theorem lex_less_cons_cons [LinearOrder α] (a b : α) (as bs : List α) :
    lex_less (a :: as) (b :: bs) =
      if a < b then true else if b < a then false else lex_less as bs :=
  rfl

theorem lex_less_iff_lex [LinearOrder α] :
    ∀ (as bs : List α), (lex_less as bs = true ↔ List.Lex (· < ·) as bs) := by
  intro as
  induction as with
  | nil =>
    intro bs
    match bs with
    | [] =>
      rw [lex_less_nil_right]
      simp
    | b :: bs =>
      rw [lex_less_nil_cons]
      simp only [true_iff]
      exact List.Lex.nil
  | cons a as ih =>
    intro bs
    match bs with
    | [] =>
      rw [lex_less_nil_right]
      simp
    | b :: bs =>
      rw [lex_less_cons_cons]
      by_cases h1 : a < b
      · rw [if_pos h1]
        simp only [true_iff]
        exact List.Lex.rel h1
      · rw [if_neg h1]
        by_cases h2 : b < a
        · rw [if_pos h2]
          simp only [Bool.false_eq_true, false_iff]
          intro hlex
          cases hlex with
          | cons h => exact absurd h2 (lt_irrefl a)
          | rel h => exact absurd h h1
        · rw [if_neg h2]
          have hab : a = b := le_antisymm (not_lt.mp h2) (not_lt.mp h1)
          subst hab
          rw [ih bs]
          exact (List.Lex.cons_iff).symm

theorem lex_three_way_nil_nil [LinearOrder α] :
    lex_three_way ([] : List α) [] = Ordering.eq :=
  rfl

theorem lex_three_way_nil_cons [LinearOrder α] (b : α) (bs : List α) :
    lex_three_way [] (b :: bs) = Ordering.lt :=
  rfl

theorem lex_three_way_cons_nil [LinearOrder α] (a : α) (as : List α) :
    lex_three_way (a :: as) [] = Ordering.gt :=
  rfl

theorem lex_three_way_cons_cons [LinearOrder α] (a b : α) (as bs : List α) :
    lex_three_way (a :: as) (b :: bs) =
      if a < b then Ordering.lt else if b < a then Ordering.gt else lex_three_way as bs :=
  rfl

theorem lex_three_way_eq_iff [LinearOrder α] :
    ∀ (as bs : List α), (lex_three_way as bs = Ordering.eq ↔ as = bs) := by
  intro as
  induction as with
  | nil =>
    intro bs
    match bs with
    | [] => simp [lex_three_way_nil_nil]
    | b :: bs => simp [lex_three_way_nil_cons]
  | cons a as ih =>
    intro bs
    match bs with
    | [] => simp [lex_three_way_cons_nil]
    | b :: bs =>
      rw [lex_three_way_cons_cons]
      by_cases h1 : a < b
      · rw [if_pos h1]
        constructor
        · intro he
          exact absurd he (by decide)
        · intro he
          injection he with he1 _
          exact absurd (he1 ▸ h1) (lt_irrefl b)
      · rw [if_neg h1]
        by_cases h2 : b < a
        · rw [if_pos h2]
          constructor
          · intro he
            exact absurd he (by decide)
          · intro he
            injection he with he1 _
            exact absurd (he1 ▸ h2) (lt_irrefl b)
        · rw [if_neg h2]
          have hab : a = b := le_antisymm (not_lt.mp h2) (not_lt.mp h1)
          subst hab
          rw [ih bs]
          constructor
          · rintro rfl
            rfl
          · intro he
            exact (List.cons.injEq a as a bs ▸ he).2

theorem lex_three_way_lt_iff [LinearOrder α] :
    ∀ (as bs : List α), (lex_three_way as bs = Ordering.lt ↔ List.Lex (· < ·) as bs) := by
  intro as
  induction as with
  | nil =>
    intro bs
    match bs with
    | [] =>
      rw [lex_three_way_nil_nil]
      simp
    | b :: bs =>
      rw [lex_three_way_nil_cons]
      simp only [true_iff]
      exact List.Lex.nil
  | cons a as ih =>
    intro bs
    match bs with
    | [] =>
      rw [lex_three_way_cons_nil]
      simp
    | b :: bs =>
      rw [lex_three_way_cons_cons]
      by_cases h1 : a < b
      · rw [if_pos h1]
        simp only [true_iff]
        exact List.Lex.rel h1
      · rw [if_neg h1]
        by_cases h2 : b < a
        · rw [if_pos h2]
          constructor
          · intro he
            exact absurd he (by decide)
          · intro hlex
            exfalso
            cases hlex with
            | cons h => exact absurd h2 (lt_irrefl a)
            | rel h => exact absurd h h1
        · rw [if_neg h2]
          have hab : a = b := le_antisymm (not_lt.mp h2) (not_lt.mp h1)
          subst hab
          rw [ih bs]
          exact (List.Lex.cons_iff).symm

/-! ### Loops used by the VarArray constructors -/

theorem copy_construct_loop_ok (copyOk : Nat → Bool) :
    ∀ (vs : List α) (k : Nat), (∀ j, j < vs.length → copyOk (k + j) = true) →
    copy_construct_loop copyOk k vs = some vs := by
  intro vs
  induction vs with
  | nil => intro k _; rfl
  | cons v vs ih =>
    intro k h
    rw [copy_construct_loop, if_pos (by simpa using h 0 (by simp))]
    rw [ih (k + 1) fun j hj => by
      have := h (j + 1) (by simpa using Nat.succ_lt_succ hj)
      rwa [show k + (j + 1) = k + 1 + j by omega] at this]

theorem copy_construct_loop_err (copyOk : Nat → Bool) :
    ∀ (vs : List α) (k : Nat), (∃ j, j < vs.length ∧ copyOk (k + j) = false) →
    copy_construct_loop copyOk k vs = none := by
  intro vs
  induction vs with
  | nil =>
    intro k h
    obtain ⟨j, hj, _⟩ := h
    simp at hj
  | cons v vs ih =>
    intro k h
    obtain ⟨j, hj, hf⟩ := h
    match j with
    | 0 =>
      rw [copy_construct_loop, if_neg]
      simpa using hf
    | j + 1 =>
      by_cases hk : copyOk k = true
      · rw [copy_construct_loop, if_pos hk,
          ih (k + 1) ⟨j, by simpa using Nat.lt_of_succ_lt_succ hj,
            by rwa [show k + 1 + j = k + (j + 1) by omega]⟩]
      · rw [copy_construct_loop, if_neg hk]

theorem fill_construct_loop_length (value : α) :
    ∀ n, (fill_construct_loop value n).length = n := by
  intro n
  induction n with
  | zero => rfl
  | succ n ih => rw [fill_construct_loop, List.length_cons, ih]

theorem fill_construct_loop_getElem? (value : α) :
    ∀ n i, i < n → (fill_construct_loop value n)[i]? = some value := by
  intro n
  induction n with
  | zero => intro i hi; omega
  | succ n ih =>
    intro i hi
    match i with
    | 0 => rw [fill_construct_loop, List.getElem?_cons_zero]
    | i + 1 =>
      rw [fill_construct_loop, List.getElem?_cons_succ]
      exact ih i (by omega)

theorem push_back_loop_throws :
    ∀ (cs : List (Option α)) (l : FixedList α CAPACITY),
    none ∈ cs → (push_back_loop l cs).2 = true := by
  intro cs
  induction cs with
  | nil => intro l h; cases h
  | cons c cs ih =>
    intro l hmem
    match c with
    | none => rfl
    | some v =>
      have hmem' : none ∈ cs := by
        rcases List.mem_cons.mp hmem with h | h
        · cases h
        · exact h
      exact ih (l.push_unchecked v).1 hmem'

theorem VarArray.elemsList_length (a : VarArray α) (hW : a.WF) :
    a.elemsList.length = a.count := by
  match a with
  | ⟨none, c⟩ =>
    have hc : c = 0 := hW
    simp [VarArray.elemsList, hc]
  | ⟨some xs, c⟩ =>
    have hx : xs.length = c := hW
    simpa [VarArray.elemsList] using hx

/-! ### The claims -/

/-- Claim C3 (code bug witnessed at a concrete input): `VarArray`'s move
constructor and move assignment null the source's storage pointer but leave
the source's `count` unchanged, so the moved-from source has `data() = null`
with `size() = 2`, violating the storage-null-iff-length-zero invariant; the
destination does report the original's length and contents. -/
theorem C3_move_leaves_source_count :
    ((⟨some [5, 7], 2⟩ : VarArray Nat).move_construct.1 = ⟨some [5, 7], 2⟩) ∧
    ((⟨some [5, 7], 2⟩ : VarArray Nat).move_construct.2.storage = none) ∧
    ((⟨some [5, 7], 2⟩ : VarArray Nat).move_construct.2.count = 2) ∧
    (¬ (⟨some [5, 7], 2⟩ : VarArray Nat).move_construct.2.NullIffEmpty) ∧
    ((VarArray.move_assign ⟨some [9], 1⟩ (⟨some [5, 7], 2⟩ : VarArray Nat)).1 =
      ⟨some [5, 7], 2⟩) ∧
    ((VarArray.move_assign ⟨some [9], 1⟩ (⟨some [5, 7], 2⟩ : VarArray Nat)).2.storage = none) ∧
    ((VarArray.move_assign ⟨some [9], 1⟩ (⟨some [5, 7], 2⟩ : VarArray Nat)).2.count = 2) := by
  refine ⟨rfl, rfl, rfl, ?_, rfl, rfl, rfl⟩
  rw [VarArray.NullIffEmpty]
  simp [VarArray.move_construct]

/-- Claim C9: for both containers, `at(index)` returns the element exactly when
`index < size()` and raises the out-of-range condition exactly when
`index >= size()`, while `get(index)` returns a pointer to the element for
`index < size()` and a null pointer otherwise, never raising. -/
theorem C9_at_get (l : FixedList α CAPACITY) (a : VarArray α) (i : Nat) :
    (i < l.size →
      l.common_at i = Except.ok (sget l.storage i) ∧
      l.common_get i = some (sget l.storage i)) ∧
    (l.size ≤ i →
      l.common_at i = Except.error () ∧ l.common_get i = none) ∧
    (i < a.size →
      a.common_at i = Except.ok a.elemsList[i]? ∧
      a.common_get i = some a.elemsList[i]?) ∧
    (a.size ≤ i →
      a.common_at i = Except.error () ∧ a.common_get i = none) := by
  refine ⟨fun h => ⟨?_, ?_⟩, fun h => ⟨?_, ?_⟩, fun h => ⟨?_, ?_⟩, fun h => ⟨?_, ?_⟩⟩
  · rw [FixedList.common_at, if_pos (show i < l.elem_count from h)]
  · rw [FixedList.common_get, if_pos (show i < l.elem_count from h)]
  · rw [FixedList.common_at, if_neg (not_lt.mpr (show l.elem_count ≤ i from h))]
  · rw [FixedList.common_get, if_neg (not_lt.mpr (show l.elem_count ≤ i from h))]
  · rw [VarArray.common_at, if_pos (show i < a.count from h)]
  · rw [VarArray.common_get, if_pos (show i < a.count from h)]
  · rw [VarArray.common_at, if_neg (not_lt.mpr (show a.count ≤ i from h))]
  · rw [VarArray.common_get, if_neg (not_lt.mpr (show a.count ≤ i from h))]

/-- Witness for C9 at concrete inputs: an in-range and an out-of-range index on
each container. -/
theorem C9_at_get_witness :
    ((1 : Nat) < (⟨2, [some 4, some 6]⟩ : FixedList Nat 2).size →
      (⟨2, [some 4, some 6]⟩ : FixedList Nat 2).common_at 1 =
        Except.ok (sget [some 4, some 6] 1) ∧
      (⟨2, [some 4, some 6]⟩ : FixedList Nat 2).common_get 1 =
        some (sget [some 4, some 6] 1)) ∧
    ((⟨2, [some 4, some 6]⟩ : FixedList Nat 2).size ≤ 2 →
      (⟨2, [some 4, some 6]⟩ : FixedList Nat 2).common_at 2 = Except.error () ∧
      (⟨2, [some 4, some 6]⟩ : FixedList Nat 2).common_get 2 = none) ∧
    ((⟨some [4, 6], 2⟩ : VarArray Nat).size ≤ 5 →
      (⟨some [4, 6], 2⟩ : VarArray Nat).common_at 5 = Except.error () ∧
      (⟨some [4, 6], 2⟩ : VarArray Nat).common_get 5 = none) :=
  ⟨(C9_at_get (⟨2, [some 4, some 6]⟩ : FixedList Nat 2) ⟨some [4, 6], 2⟩ 1).1,
    (C9_at_get (⟨2, [some 4, some 6]⟩ : FixedList Nat 2) ⟨some [4, 6], 2⟩ 2).2.1,
    (C9_at_get (⟨2, [some 4, some 6]⟩ : FixedList Nat 2) ⟨some [4, 6], 2⟩ 5).2.2.2⟩

/-- Counterexample to Claim C5 as stated: on a full list, `try_insert(pos, 0, v)`
with `pos` not at the end passes the capacity test (`size + 0` does not exceed
the capacity) and returns `pos`, not the end iterator — here it returns slot
`0` while the end iterator is slot `2` (the source documents exactly this:
"otherwise pos if count is zero"). The container is unchanged. -/
theorem C5_counterexample :
    ((⟨2, [some 10, some 20]⟩ : FixedList Nat 2).try_insert_count 0 0 99).2 = some 0 ∧
    ((⟨2, [some 10, some 20]⟩ : FixedList Nat 2).try_insert_count 0 0 99).2 ≠
      some ((⟨2, [some 10, some 20]⟩ : FixedList Nat 2).size) ∧
    ((⟨2, [some 10, some 20]⟩ : FixedList Nat 2).try_insert_count 0 0 99).1 =
      ⟨2, [some 10, some 20]⟩ := by
  refine ⟨by decide, by decide, by decide⟩

/-- Claim C5 as amended: on a full list, `try_emplace_back` returns a null
pointer, `try_emplace` (and the single-value `try_insert`, which delegates to
it) returns the end iterator, and `try_insert` of `count ≥ 1` copies returns
the end iterator; in all these cases the container is returned unchanged.
(`try_insert` with `count = 0` instead returns `pos`, also leaving the
container unchanged.) -/
theorem C5_try_on_full (l : FixedList α CAPACITY) (hfull : l.elem_count = CAPACITY)
    (pos : Nat) (v : α) (count : Nat) (hc : 1 ≤ count) :
    l.try_emplace_back v = (l, none) ∧
    l.try_emplace pos v = (l, l.size) ∧
    l.try_insert_count pos count v = (l, some l.size) := by
  refine ⟨?_, ?_, ?_⟩
  · rw [FixedList.try_emplace_back, if_pos hfull]
  · rw [FixedList.try_emplace, if_pos hfull]
    rfl
  · rw [FixedList.try_insert_count, if_pos (by omega)]
    rfl


/-- Witness for the amended C5 on a concrete full list. -/
theorem C5_try_on_full_witness :
    (⟨2, [some 5, some 6]⟩ : FixedList Nat 2).elem_count = 2 ∧ (1 : Nat) ≤ 1 ∧
    ((⟨2, [some 5, some 6]⟩ : FixedList Nat 2).try_emplace_back 7 =
      (⟨2, [some 5, some 6]⟩, none) ∧
    (⟨2, [some 5, some 6]⟩ : FixedList Nat 2).try_emplace 0 7 =
      (⟨2, [some 5, some 6]⟩, (⟨2, [some 5, some 6]⟩ : FixedList Nat 2).size) ∧
    (⟨2, [some 5, some 6]⟩ : FixedList Nat 2).try_insert_count 0 1 7 =
      (⟨2, [some 5, some 6]⟩, some (⟨2, [some 5, some 6]⟩ : FixedList Nat 2).size)) :=
  ⟨rfl, by decide, C5_try_on_full (⟨2, [some 5, some 6]⟩ : FixedList Nat 2) rfl 0 7 1 (by decide)⟩

/-- Claim C8: the sized constructors produce exactly `count` elements, each
equal to the value of the chosen initializer — the default-constructed value
for `FixedList(count)`, the fill value for `FixedList(count, value)`, the
corresponding list element for the initializer-list constructor, and the fill
value for `VarArray(count, value)`. -/
theorem C8_sized_constructors (dflt value w : α) (count : Nat) (hcount : count ≤ CAPACITY)
    (init : List α) (hinit : init.length ≤ CAPACITY) (m : Nat) :
    (((FixedList.mk_count dflt count : FixedList α CAPACITY)).size = count ∧
      ∀ i, i < count →
        sget ((FixedList.mk_count dflt count : FixedList α CAPACITY)).storage i = some dflt) ∧
    (((FixedList.mk_fill count value : FixedList α CAPACITY)).size = count ∧
      ∀ i, i < count →
        sget ((FixedList.mk_fill count value : FixedList α CAPACITY)).storage i = some value) ∧
    (((FixedList.mk_of_list init : FixedList α CAPACITY)).size = init.length ∧
      ∀ i, i < init.length →
        sget ((FixedList.mk_of_list init : FixedList α CAPACITY)).storage i = init[i]?) ∧
    ((VarArray.mk_fill m w).size = m ∧
      ∀ i, i < m → (VarArray.mk_fill m w).elemsList[i]? = some w) := by
  have hrep : (List.replicate CAPACITY (none : Option α)).length = CAPACITY :=
    List.length_replicate CAPACITY none
  refine ⟨⟨rfl, ?_⟩, ⟨rfl, ?_⟩, ⟨rfl, ?_⟩, rfl, ?_⟩
  · intro i hi
    rw [FixedList.mk_count]
    rw [show (⟨count, uninit_copy_loop (List.replicate CAPACITY none) 0
        (List.replicate count dflt)⟩ : FixedList α CAPACITY).storage =
      uninit_copy_loop (List.replicate CAPACITY none) 0 (List.replicate count dflt) from rfl]
    rw [sget_uninit_copy_loop (List.replicate count dflt) (List.replicate CAPACITY none) 0
      (by rw [hrep]; simpa using hcount) i]
    rw [if_pos (by simpa using hi)]
    rw [List.getElem?_replicate, if_pos (by omega)]
  · intro i hi
    rw [FixedList.mk_fill]
    rw [show (⟨count, uninit_copy_loop (List.replicate CAPACITY none) 0
        (List.replicate count value)⟩ : FixedList α CAPACITY).storage =
      uninit_copy_loop (List.replicate CAPACITY none) 0 (List.replicate count value) from rfl]
    rw [sget_uninit_copy_loop (List.replicate count value) (List.replicate CAPACITY none) 0
      (by rw [hrep]; simpa using hcount) i]
    rw [if_pos (by simpa using hi)]
    rw [List.getElem?_replicate, if_pos (by omega)]
  · intro i hi
    rw [FixedList.mk_of_list]
    rw [show (⟨init.length, uninit_copy_loop (List.replicate CAPACITY none) 0
        init⟩ : FixedList α CAPACITY).storage =
      uninit_copy_loop (List.replicate CAPACITY none) 0 init from rfl]
    rw [sget_uninit_copy_loop init (List.replicate CAPACITY none) 0
      (by rw [hrep]; simpa using hinit) i]
    rw [if_pos (by omega)]
    rw [show i - 0 = i from rfl]
  · intro i hi
    rw [show (VarArray.mk_fill m w).elemsList = fill_construct_loop w m from rfl]
    exact fill_construct_loop_getElem? w m i hi

/-- Witness for C8: a three-element default construction, fill, list
construction in capacity 4, and a two-element VarArray fill. -/
theorem C8_sized_constructors_witness :
    (3 : Nat) ≤ 4 ∧ ([8, 9] : List Nat).length ≤ 4 ∧
    ((((FixedList.mk_count 7 3 : FixedList Nat 4)).size = 3 ∧
      ∀ i, i < 3 → sget ((FixedList.mk_count 7 3 : FixedList Nat 4)).storage i = some 7) ∧
    (((FixedList.mk_fill 3 5 : FixedList Nat 4)).size = 3 ∧
      ∀ i, i < 3 → sget ((FixedList.mk_fill 3 5 : FixedList Nat 4)).storage i = some 5) ∧
    (((FixedList.mk_of_list [8, 9] : FixedList Nat 4)).size = ([8, 9] : List Nat).length ∧
      ∀ i, i < ([8, 9] : List Nat).length →
        sget ((FixedList.mk_of_list [8, 9] : FixedList Nat 4)).storage i =
          ([8, 9] : List Nat)[i]?) ∧
    ((VarArray.mk_fill 2 (6 : Nat)).size = 2 ∧
      ∀ i, i < 2 → (VarArray.mk_fill 2 (6 : Nat)).elemsList[i]? = some 6)) :=
  ⟨by decide, by decide,
    C8_sized_constructors 7 5 6 3 (by decide) [8, 9] (by decide) 2⟩

/-- Claim C10: `VarArray` copy assignment is strongly exception-safe: the
by-value parameter builds the complete copy before the operator body runs, so
a throwing element copy leaves the target exactly as it was, and a successful
assignment gives the target the source's length and elements. -/
theorem C10_copy_assign_strong (target src : VarArray α) (hW : src.WF) (copyOk : Nat → Bool) :
    ((∃ k, k < src.count ∧ copyOk k = false) →
      VarArray.copy_assign target src copyOk = (target, true)) ∧
    ((∀ k, k < src.count → copyOk k = true) →
      (VarArray.copy_assign target src copyOk).1.size = src.size ∧
      (VarArray.copy_assign target src copyOk).1.elemsList = src.elemsList ∧
      (VarArray.copy_assign target src copyOk).2 = false) := by
  have hlen : src.elemsList.length = src.count := VarArray.elemsList_length src hW
  constructor
  · rintro ⟨k, hk, hf⟩
    have herr : copy_construct_loop copyOk 0 src.elemsList = none :=
      copy_construct_loop_err copyOk src.elemsList 0 ⟨k, by omega, by simpa using hf⟩
    rw [VarArray.copy_assign, VarArray.copy_construct, herr]
  · intro hok
    have hsome : copy_construct_loop copyOk 0 src.elemsList = some src.elemsList :=
      copy_construct_loop_ok copyOk src.elemsList 0 fun j hj => by
        rw [show 0 + j = j by omega]
        exact hok j (by omega)
    rw [VarArray.copy_assign, VarArray.copy_construct, hsome]
    exact ⟨rfl, rfl, rfl⟩

/-- Witness for C10: a throwing copy (second element) leaves the target
unchanged; an all-successful copy transfers length and elements. -/
theorem C10_copy_assign_strong_witness :
    (∃ k, k < (⟨some [3, 4, 5], 3⟩ : VarArray Nat).count ∧ (fun j => decide (j ≠ 1)) k = false) ∧
    (VarArray.copy_assign (⟨some [9], 1⟩ : VarArray Nat) ⟨some [3, 4, 5], 3⟩
      (fun j => decide (j ≠ 1)) = (⟨some [9], 1⟩, true)) ∧
    ((VarArray.copy_assign (⟨some [9], 1⟩ : VarArray Nat) ⟨some [3, 4, 5], 3⟩
        (fun _ => true)).1.size = (⟨some [3, 4, 5], 3⟩ : VarArray Nat).size ∧
      (VarArray.copy_assign (⟨some [9], 1⟩ : VarArray Nat) ⟨some [3, 4, 5], 3⟩
        (fun _ => true)).1.elemsList = (⟨some [3, 4, 5], 3⟩ : VarArray Nat).elemsList ∧
      (VarArray.copy_assign (⟨some [9], 1⟩ : VarArray Nat) ⟨some [3, 4, 5], 3⟩
        (fun _ => true)).2 = false) :=
  ⟨⟨1, by decide, by decide⟩,
    (C10_copy_assign_strong (⟨some [9], 1⟩ : VarArray Nat) ⟨some [3, 4, 5], 3⟩ (by decide)
      (fun j => decide (j ≠ 1))).1 ⟨1, by decide, by decide⟩,
    (C10_copy_assign_strong (⟨some [9], 1⟩ : VarArray Nat) ⟨some [3, 4, 5], 3⟩ (by decide)
      (fun _ => true)).2 fun k _ => rfl⟩

/-- Counterexample to Claim C2 as stated: constructing a capacity-2 BoundedList
from the single-pass range `[1, 2, 3]` does not stop at capacity —
`std::uninitialized_copy` copies the whole range, so the third placement-`new`
writes out of bounds (undefined behavior, modelled as `none`); no container
with `size() = min(3, 2) = 2` results. -/
theorem C2_counterexample :
    (FixedList.from_input_range [1, 2, 3] : Option (FixedList Nat 2)) = none ∧
    ¬ ∃ l : FixedList Nat 2, FixedList.from_input_range [1, 2, 3] = some l ∧
        l.size = min ([1, 2, 3] : List Nat).length 2 := by
  refine ⟨by decide, ?_⟩
  rintro ⟨l, hl, _⟩
  rw [show (FixedList.from_input_range [1, 2, 3] : Option (FixedList Nat 2)) = none
    by decide] at hl
  exact Option.noConfusion hl

/-- Claim C2 as amended: the single-pass-range constructor copies the entire
range, so for a range of length at most `Capacity` it succeeds with
`size() = range length` and the range's elements in order; a longer range is
not silently truncated — it overruns the storage (caught by the debug
iterator assertions, undefined behavior in release). -/
theorem C2_input_range_within_capacity (xs : List α) (h : xs.length ≤ CAPACITY) :
    ∃ l : FixedList α CAPACITY, FixedList.from_input_range xs = some l ∧
      l.size = xs.length ∧ ∀ i, i < xs.length → sget l.storage i = xs[i]? := by
  have hrep : (List.replicate CAPACITY (none : Option α)).length = CAPACITY :=
    List.length_replicate CAPACITY none
  have hchk := uninit_copy_checked_eq xs (List.replicate CAPACITY none) 0
    (by rw [hrep]; simpa using h)
  refine ⟨⟨xs.length, uninit_copy_loop (List.replicate CAPACITY none) 0 xs⟩, ?_, rfl, ?_⟩
  · rw [FixedList.from_input_range, hchk]
  · intro i hi
    rw [show (⟨xs.length, uninit_copy_loop (List.replicate CAPACITY none) 0 xs⟩ :
        FixedList α CAPACITY).storage =
      uninit_copy_loop (List.replicate CAPACITY none) 0 xs from rfl]
    rw [sget_uninit_copy_loop xs (List.replicate CAPACITY none) 0
      (by rw [hrep]; simpa using h) i]
    rw [if_pos (by omega)]
    rw [show i - 0 = i from rfl]

/-- Witness for the amended C2: a two-element single-pass range into capacity 3. -/
theorem C2_input_range_within_capacity_witness :
    ([4, 5] : List Nat).length ≤ 3 ∧
    ∃ l : FixedList Nat 3, FixedList.from_input_range [4, 5] = some l ∧
      l.size = ([4, 5] : List Nat).length ∧
      ∀ i, i < ([4, 5] : List Nat).length → sget l.storage i = ([4, 5] : List Nat)[i]? :=
  ⟨by decide, C2_input_range_within_capacity ([4, 5] : List Nat) (by decide)⟩

/-- Claim C4: when an element constructor throws partway through a bulk
`assign` — the fill/forward form, which destroys the old contents, resets the
count and rebuilds, or the single-pass form, which clears and appends one
element at a time — the exception propagates (`true` flag) and the container
is left empty, not reverted to its old contents. -/
theorem C4_assign_empties_on_throw (l : FixedList α CAPACITY) (count : Nat)
    (ctors : List (Option α)) (hthrow : none ∈ ctors) :
    ((l.assign_fill count ctors).1.size = 0 ∧ (l.assign_fill count ctors).2 = true) ∧
    ((l.assign_input ctors).1.size = 0 ∧ (l.assign_input ctors).2 = true) := by
  constructor
  · obtain ⟨bufE, p, heq, -, -, -, -⟩ :=
      construct_loop_error ctors (destroy_range l.storage 0 l.elem_count) 0 hthrow
    rw [FixedList.assign_fill, heq]
    exact ⟨rfl, rfl⟩
  · have h2 : (push_back_loop l.clear ctors).2 = true :=
      push_back_loop_throws ctors l.clear hthrow
    constructor
    · simp only [FixedList.assign_input, h2, if_true]
      rfl
    · simp only [FixedList.assign_input, h2, if_true]

/-- Witness for C4: assigning two elements whose second construction throws
into a container currently holding one element leaves it empty both ways. -/
theorem C4_assign_empties_on_throw_witness :
    none ∈ [some 4, none] ∧
    ((((⟨1, [some 3, none]⟩ : FixedList Nat 2).assign_fill 2 [some 4, none]).1.size = 0 ∧
      ((⟨1, [some 3, none]⟩ : FixedList Nat 2).assign_fill 2 [some 4, none]).2 = true) ∧
    (((⟨1, [some 3, none]⟩ : FixedList Nat 2).assign_input [some 4, none]).1.size = 0 ∧
      ((⟨1, [some 3, none]⟩ : FixedList Nat 2).assign_input [some 4, none]).2 = true)) :=
  ⟨by decide,
    C4_assign_empties_on_throw (⟨1, [some 3, none]⟩ : FixedList Nat 2) 2 [some 4, none]
      (by decide)⟩

/-- Claim C6: `erase(first, last)` destroys the elements of the range,
left-shifts the remaining tail over it, decrements the length by the range
size, and returns an iterator to the slot that held the element following the
last removed one. -/
theorem C6_erase_range_shifts (l : FixedList α CAPACITY) (hW : l.WF) (first last : Nat)
    (hfl : first ≤ last) (hln : last ≤ l.elem_count) :
    ((l.erase_range first last).1.size = l.size - (last - first)) ∧
    ((l.erase_range first last).2 = first) ∧
    (∀ i, i < first →
      sget (l.erase_range first last).1.storage i = sget l.storage i) ∧
    (∀ i, first ≤ i → i < l.size - (last - first) →
      sget (l.erase_range first last).1.storage i = sget l.storage (i + (last - first))) := by
  obtain ⟨hcap, hle⟩ := hW
  have hstor : (l.erase_range first last).1.storage =
      move_left_loop (destroy_loop l.storage first (last - first)) last first
        (l.elem_count - last) := rfl
  have hlen1 : (destroy_loop l.storage first (last - first)).length = l.storage.length :=
    length_destroy_loop (last - first) l.storage first
  refine ⟨rfl, rfl, ?_, ?_⟩
  · intro i hi
    rw [hstor]
    rw [sget_move_left_loop (l.elem_count - last) (destroy_loop l.storage first (last - first))
      last first hfl (by rw [hlen1]; omega) i]
    rw [if_neg (by omega)]
    rw [sget_destroy_loop (last - first) l.storage first i]
    rw [if_neg (by omega)]
  · intro i h1 h2
    have h2e : i < l.elem_count - (last - first) := h2
    rw [hstor]
    rw [sget_move_left_loop (l.elem_count - last) (destroy_loop l.storage first (last - first))
      last first hfl (by rw [hlen1]; omega) i]
    rw [if_pos (by omega)]
    rw [sget_destroy_loop (last - first) l.storage first (last + (i - first))]
    rw [if_neg (by omega)]
    rw [show last + (i - first) = i + (last - first) by omega]

/-- Witness for C6 at the spec's example: erasing `[begin() + 2, end())` from
the capacity-10 list `2, 3, 4, 5, 6, 7, 8, 9` yields the two-element list
`2, 3` and returns an iterator to slot 2. -/
theorem C6_erase_range_shifts_witness :
    ((FixedList.mk_of_list [2, 3, 4, 5, 6, 7, 8, 9] : FixedList Nat 10)).WF ∧
    (2 : Nat) ≤ 8 ∧
    (8 : Nat) ≤ ((FixedList.mk_of_list [2, 3, 4, 5, 6, 7, 8, 9] : FixedList Nat 10)).elem_count ∧
    ((((FixedList.mk_of_list [2, 3, 4, 5, 6, 7, 8, 9] : FixedList Nat 10)).erase_range 2 8).1.size =
      ((FixedList.mk_of_list [2, 3, 4, 5, 6, 7, 8, 9] : FixedList Nat 10)).size - (8 - 2)) ∧
    ((((FixedList.mk_of_list [2, 3, 4, 5, 6, 7, 8, 9] : FixedList Nat 10)).erase_range 2 8).2 = 2) ∧
    ((((FixedList.mk_of_list [2, 3, 4, 5, 6, 7, 8, 9] : FixedList Nat 10)).erase_range 2 8).1.observed =
      [some 2, some 3]) :=
  ⟨by decide, by decide, by decide,
    (C6_erase_range_shifts ((FixedList.mk_of_list [2, 3, 4, 5, 6, 7, 8, 9] : FixedList Nat 10)) (by decide) 2 8 (by decide) (by decide)).1,
    (C6_erase_range_shifts ((FixedList.mk_of_list [2, 3, 4, 5, 6, 7, 8, 9] : FixedList Nat 10)) (by decide) 2 8 (by decide) (by decide)).2.1,
    by decide⟩

/-- Claim C1: when the element constructor throws during a positional
insert — a single element through `emplace`/`insert` (which delegates to
`emplace_unchecked`), or `count` copies through `insert(pos, count, value)`
(which delegates to `insert_count_unchecked`) — the right-shift of the tail
is undone by the catch handler and the container's visible state, its size
and every element, is identical to the state before the call. -/
theorem C1_positional_insert_rollback (l : FixedList α CAPACITY) (hW : l.WF) (pos : Nat)
    (hpos : pos ≤ l.elem_count) :
    (l.elem_count < CAPACITY →
      (l.emplace_unchecked pos none).1.size = l.size ∧
      (l.emplace_unchecked pos none).1.observed = l.observed) ∧
    (∀ count ctors, l.elem_count + count ≤ CAPACITY → ctors.length = count →
      none ∈ ctors →
      (l.insert_count_unchecked pos count ctors).1.size = l.size ∧
      (l.insert_count_unchecked pos count ctors).1.observed = l.observed) := by
  obtain ⟨hcap, hle⟩ := hW
  constructor
  · intro hlt
    refine ⟨rfl, ?_⟩
    have hstor : (l.emplace_unchecked pos none).1.storage =
        move_left_loop
          (move_right_loop l.storage l.elem_count (l.elem_count + 1) (l.elem_count - pos))
          (pos + 1) pos (l.elem_count + 1 - (pos + 1)) := rfl
    have hbr : ∀ j, sget
        (move_right_loop l.storage l.elem_count (l.elem_count + 1) (l.elem_count - pos)) j =
        if pos + 1 ≤ j ∧ j < l.elem_count + 1 then sget l.storage (j - 1)
        else sget l.storage j := by
      intro j
      rw [sget_move_right_loop (l.elem_count - pos) l.storage l.elem_count (l.elem_count + 1)
        (by omega) (by omega) (by omega) j]
      rw [show l.elem_count + 1 - (l.elem_count - pos) = pos + 1 by omega,
        show l.elem_count + 1 - l.elem_count = 1 by omega]
    rw [FixedList.observed, FixedList.observed, hstor,
      show l.elem_count + 1 - (pos + 1) = l.elem_count - pos by omega,
      show (l.emplace_unchecked pos none).1.elem_count = l.elem_count from rfl]
    apply take_eq_of_sget
    · rw [length_move_left_loop, length_move_right_loop]
      omega
    · omega
    · intro i hi
      rw [sget_move_left_loop (l.elem_count - pos)
        (move_right_loop l.storage l.elem_count (l.elem_count + 1) (l.elem_count - pos))
        (pos + 1) pos (by omega) (by rw [length_move_right_loop]; omega) i]
      by_cases hc : pos ≤ i
      · rw [if_pos ⟨hc, by omega⟩]
        rw [hbr (pos + 1 + (i - pos))]
        rw [if_pos (by omega)]
        rw [show pos + 1 + (i - pos) - 1 = i by omega]
      · rw [if_neg (by omega)]
        rw [hbr i, if_neg (by omega)]
  · intro count ctors hcnt hclen hmem
    have hbr : ∀ j, sget
        (move_right_loop l.storage l.elem_count (l.elem_count + count) (l.elem_count - pos)) j =
        if pos + count ≤ j ∧ j < l.elem_count + count then sget l.storage (j - count)
        else sget l.storage j := by
      intro j
      rw [sget_move_right_loop (l.elem_count - pos) l.storage l.elem_count
        (l.elem_count + count) (by omega) (by omega) (by omega) j]
      rw [show l.elem_count + count - (l.elem_count - pos) = pos + count by omega,
        show l.elem_count + count - l.elem_count = count by omega]
    obtain ⟨bufE, p, heq, hp1, hp2, hlenE, houter⟩ := construct_loop_error ctors
      (move_right_loop l.storage l.elem_count (l.elem_count + count) (l.elem_count - pos))
      pos hmem
    have hres : l.insert_count_unchecked pos count ctors =
        (⟨l.elem_count, move_left_unchecked (destroy_range bufE pos p) (pos + count)
          (l.elem_count + count) pos⟩, none) := by
      rw [FixedList.insert_count_unchecked]
      rw [show move_right_unchecked l.storage pos l.elem_count (l.elem_count + count) =
        move_right_loop l.storage l.elem_count (l.elem_count + count) (l.elem_count - pos)
        from rfl]
      rw [heq]
    rw [hres]
    refine ⟨rfl, ?_⟩
    have hlenbufE : bufE.length = l.storage.length := by
      rw [hlenE, length_move_right_loop]
    have hp2' : p ≤ pos + count := by omega
    rw [FixedList.observed, FixedList.observed]
    rw [show (⟨l.elem_count, move_left_unchecked (destroy_range bufE pos p) (pos + count)
        (l.elem_count + count) pos⟩ : FixedList α CAPACITY).elem_count = l.elem_count from rfl,
      show (⟨l.elem_count, move_left_unchecked (destroy_range bufE pos p) (pos + count)
        (l.elem_count + count) pos⟩ : FixedList α CAPACITY).storage =
        move_left_loop (destroy_loop bufE pos (p - pos)) (pos + count) pos
          (l.elem_count + count - (pos + count)) from rfl,
      show l.elem_count + count - (pos + count) = l.elem_count - pos by omega]
    apply take_eq_of_sget
    · rw [length_move_left_loop, length_destroy_loop]
      omega
    · omega
    · intro i hi
      rw [sget_move_left_loop (l.elem_count - pos) (destroy_loop bufE pos (p - pos))
        (pos + count) pos (by omega)
        (by rw [length_destroy_loop]; omega) i]
      by_cases hc : pos ≤ i
      · rw [if_pos ⟨hc, by omega⟩]
        rw [sget_destroy_loop (p - pos) bufE pos (pos + count + (i - pos))]
        rw [if_neg (by omega)]
        rw [houter (pos + count + (i - pos)) (Or.inr (by omega))]
        rw [hbr (pos + count + (i - pos))]
        rw [if_pos (by omega)]
        rw [show pos + count + (i - pos) - count = i by omega]
      · rw [if_neg (by omega)]
        rw [sget_destroy_loop (p - pos) bufE pos i]
        rw [if_neg (by omega)]
        rw [houter i (Or.inl (by omega))]
        rw [hbr i, if_neg (by omega)]

/-- Witness for C1: a throwing emplace at position 1 of a two-element list, and
a throwing two-copy insert at position 1, both leave size and contents
untouched. -/
theorem C1_positional_insert_rollback_witness :
    (⟨2, [some 1, some 2, none, none]⟩ : FixedList Nat 4).WF ∧
    (1 : Nat) ≤ (⟨2, [some 1, some 2, none, none]⟩ : FixedList Nat 4).elem_count ∧
    (((⟨2, [some 1, some 2, none, none]⟩ : FixedList Nat 4).emplace_unchecked 1 none).1.size =
      (⟨2, [some 1, some 2, none, none]⟩ : FixedList Nat 4).size ∧
    ((⟨2, [some 1, some 2, none, none]⟩ : FixedList Nat 4).emplace_unchecked 1
        none).1.observed =
      (⟨2, [some 1, some 2, none, none]⟩ : FixedList Nat 4).observed) ∧
    (((⟨2, [some 1, some 2, none, none]⟩ : FixedList Nat 4).insert_count_unchecked 1 2
        [some 7, none]).1.size =
      (⟨2, [some 1, some 2, none, none]⟩ : FixedList Nat 4).size ∧
    ((⟨2, [some 1, some 2, none, none]⟩ : FixedList Nat 4).insert_count_unchecked 1 2
        [some 7, none]).1.observed =
      (⟨2, [some 1, some 2, none, none]⟩ : FixedList Nat 4).observed) :=
  ⟨by decide, by decide,
    (C1_positional_insert_rollback (⟨2, [some 1, some 2, none, none]⟩ : FixedList Nat 4)
      (by decide) 1 (by decide)).1 (by decide),
    (C1_positional_insert_rollback (⟨2, [some 1, some 2, none, none]⟩ : FixedList Nat 4)
      (by decide) 1 (by decide)).2 2 [some 7, none] (by decide) (by decide) (by decide)⟩

/-- Claim C7: for both containers, compared against any sequence of values:
equality holds iff the lengths agree and corresponding elements agree;
`operator<` decides exactly the strict lexicographic order induced by the
element-wise `<`; and the three-way comparison yields `eq` exactly on equal
sequences and `lt` exactly on the same lexicographic order. -/
theorem C7_lexicographic_comparisons [LinearOrder α] [DecidableEq α]
    (l : FixedList α CAPACITY) (hW : l.WF) (hL : l.Live) (a : VarArray α) (hA : a.WF)
    (that : List α) :
    (l.beq that = true ↔ l.liveVals = that) ∧
    (l.lex_lt that = true ↔ List.Lex (· < ·) l.liveVals that) ∧
    (l.three_way that = Ordering.eq ↔ l.liveVals = that) ∧
    (l.three_way that = Ordering.lt ↔ List.Lex (· < ·) l.liveVals that) ∧
    (a.beq that = true ↔ a.elemsList = that) ∧
    (a.lex_lt that = true ↔ List.Lex (· < ·) a.elemsList that) ∧
    (a.three_way that = Ordering.eq ↔ a.elemsList = that) ∧
    (a.three_way that = Ordering.lt ↔ List.Lex (· < ·) a.elemsList that) := by
  have hvl : l.liveVals.length = l.elem_count := FixedList.liveVals_length l hW hL
  have hva : a.elemsList.length = a.count := VarArray.elemsList_length a hA
  refine ⟨?_, lex_less_iff_lex l.liveVals that, lex_three_way_eq_iff l.liveVals that,
    lex_three_way_lt_iff l.liveVals that, ?_, lex_less_iff_lex a.elemsList that,
    lex_three_way_eq_iff a.elemsList that, lex_three_way_lt_iff a.elemsList that⟩
  · rw [FixedList.beq, Bool.and_eq_true, decide_eq_true_iff]
    constructor
    · rintro ⟨hsz, hse⟩
      refine (seq_equal_iff l.liveVals that ?_).mp hse
      rw [hvl]
      exact hsz
    · intro heq
      have hlen : l.liveVals.length = that.length := by rw [heq]
      exact ⟨by rw [FixedList.size, ← hvl, hlen], (seq_equal_iff l.liveVals that hlen).mpr heq⟩
  · rw [VarArray.beq, Bool.and_eq_true, decide_eq_true_iff]
    constructor
    · rintro ⟨hsz, hse⟩
      refine (seq_equal_iff a.elemsList that ?_).mp hse
      rw [hva]
      exact hsz
    · intro heq
      have hlen : a.elemsList.length = that.length := by rw [heq]
      exact ⟨by rw [VarArray.size, ← hva, hlen], (seq_equal_iff a.elemsList that hlen).mpr heq⟩

/-- Witness for C7 on the spec's examples: `1, 2, 2` is lexicographically less
than `1, 2, 3`, and `1, 2, 3` three-way-compares as `eq` against itself, on
both containers. -/
theorem C7_lexicographic_comparisons_witness :
    (⟨3, [some 1, some 2, some 2]⟩ : FixedList Nat 3).WF ∧
    (⟨3, [some 1, some 2, some 2]⟩ : FixedList Nat 3).Live ∧
    (⟨some [1, 2, 2], 3⟩ : VarArray Nat).WF ∧
    ((⟨3, [some 1, some 2, some 2]⟩ : FixedList Nat 3).lex_lt [1, 2, 3] = true ↔
      List.Lex (· < ·) (⟨3, [some 1, some 2, some 2]⟩ : FixedList Nat 3).liveVals [1, 2, 3]) ∧
    (⟨3, [some 1, some 2, some 2]⟩ : FixedList Nat 3).lex_lt [1, 2, 3] = true ∧
    ((⟨some [1, 2, 2], 3⟩ : VarArray Nat).beq [1, 2, 2] = true ↔
      (⟨some [1, 2, 2], 3⟩ : VarArray Nat).elemsList = [1, 2, 2]) ∧
    (⟨some [1, 2, 2], 3⟩ : VarArray Nat).lex_lt [1, 2, 3] = true ∧
    lex_three_way ([1, 2, 3] : List Nat) [1, 2, 3] = Ordering.eq :=
  ⟨by decide, by decide, by decide,
    (C7_lexicographic_comparisons (⟨3, [some 1, some 2, some 2]⟩ : FixedList Nat 3)
      (by decide) (by decide) (⟨some [1, 2, 2], 3⟩ : VarArray Nat) (by decide) [1, 2, 3]).2.1,
    by decide,
    (C7_lexicographic_comparisons (⟨3, [some 1, some 2, some 2]⟩ : FixedList Nat 3)
      (by decide) (by decide) (⟨some [1, 2, 2], 3⟩ : VarArray Nat) (by decide)
      [1, 2, 2]).2.2.2.2.1,
    by decide, by decide⟩

end hh
